import Mathlib

/-!
# rpi-devices: the PMS7003 air-quality driver and the auto-air application

A shallow embedding of `dev/pms7003.go` (frame acquisition, validation,
outlier filter, link recovery) and of the decision logic of
`app/autoair/autoair.go` (`clean`, `getPM25`), followed by the properties
proved about them.

Conventions
* a Go `byte` is a `Fin 256`; a `uint16` is a `Nat` reduced with `% 65536`
  wherever the Go expression can wrap;
* the serial link is an oracle answering the k-th `Flush`, `Read` and
  `OpenPort` call; the driver state counts the calls issued and keeps a log
  of what the call did;
* the oracle may answer a read with no byte and no error, which `Read` on the
  serial port never does for a non-empty slice (a read of zero bytes comes
  back as the error `io.EOF`); on such answers the inner read loop of `Get`
  would not end, so the loop is run with a bound on the number of `Read`
  calls, and hitting the bound is reported as such.
-/

namespace PMS7003

/-! ## Bytes, the buffer and 16-bit arithmetic -/

/-- A Go `byte`. -/
abbrev Byte := Fin 256

/-- The field `buf [128]byte` of the driver. -/
abbrev Buf := Fin 128 → Byte

/-- The expression `uint16(p.buf[i])` (also used where the source widens later). -/
def byteAt (buf : Buf) (i : Nat) : Nat :=
  if h : i < 128 then (buf ⟨i, h⟩).val else 0

/-- Truncation to `uint16`. -/
def u16 (n : Nat) : Nat := n % 65536

/-- The expression `(uint16(hi) << 8) | uint16(lo)`. -/
def be16 (hi lo : Nat) : Nat := u16 (hi <<< 8) ||| lo

/-- The loop `checksum := uint16(0); for i := 0; i < 29; i++ { checksum += uint16(p.buf[i]) }`. -/
def checksumLoop (buf : Buf) : Nat :=
  (List.range 29).foldl (fun checksum i => u16 (checksum + byteAt buf i)) 0

/-- The condition of the `if` at line 92 of `pms7003.go`, as written there. -/
def headerRejects (buf : Buf) : Bool :=
  decide (byteAt buf 0 ≠ 0x42) && decide (byteAt buf 1 ≠ 0x4d)
    && decide (byteAt buf 2 ≠ 0) && decide (byteAt buf 3 ≠ 28)

/-- The condition of the `if` at line 100 of `pms7003.go`. -/
def checksumRejects (buf : Buf) : Bool :=
  decide (checksumLoop buf ≠ be16 (byteAt buf 30) (byteAt buf 31))

/-- What lines 92-106 of `Get` make of a buffer holding 32 fresh bytes. -/
inductive Validation where
  | framing
  | checksum
  | decoded (pm25 pm10 : Nat)
  deriving DecidableEq, Repr

/-- Lines 92-106 of `Get`: header test, checksum test, field extraction. -/
def validate (buf : Buf) : Validation :=
  if headerRejects buf then Validation.framing
  else if checksumRejects buf then Validation.checksum
  else Validation.decoded (be16 (byteAt buf 6) (byteAt buf 7)) (be16 (byteAt buf 8) (byteAt buf 9))

/-- The sum `b[0] + ... + b[28]` of the first 29 bytes, without wrapping. -/
def frameSum (buf : Buf) : Nat :=
  ((List.range 29).map (byteAt buf)).sum

/-- A buffer whose first bytes are the given ones and whose other bytes are zero. -/
def bufOfList (bytes : List Byte) : Buf :=
  fun i => bytes.getD i.val 0

/-! ## History (package `base`) -/

/-- Errors an `Avg` call may return; Go's `error` is an open type. -/
inductive HistErr where
  | ErrEmpty
  | other
  deriving DecidableEq, Repr

/-- Modelled from the spec: `base.History` is not among the sources. It is the
bounded sequence of the last `size` accepted values, oldest first. -/
structure History where
  size : Nat
  list : List Nat
  deriving DecidableEq, Repr

/-- Modelled from the spec: `base.NewHistory(size)` is an empty history of capacity `size`. -/
def NewHistory (size : Nat) : History := ⟨size, []⟩

/-- Modelled from the spec: `add(v)` appends `v`, evicting the oldest entry if
the size already equals the capacity. -/
def History.Add (h : History) (v : Nat) : History :=
  if h.list.length = h.size then { h with list := h.list.tail ++ [v] }
  else { h with list := h.list ++ [v] }

/-- Modelled from the spec: `avg()` is the arithmetic mean of all currently held
values and fails with `ErrEmpty` if there is none. The mean is exact here; the
driver compares it against an integer threshold at distance at least 1/10, far
above the rounding error of a `float64` mean of at most ten 16-bit values. -/
def History.Avg (h : History) : Except HistErr ℚ :=
  if h.list.length = 0 then Except.error HistErr.ErrEmpty
  else Except.ok ((h.list.sum : ℚ) / (h.list.length : ℚ))

/-- The constant `maxDeltaPM25`. -/
def maxDeltaPM25 : ℚ := 150

/-- The method `checkDelta`: the verdict and the history it leaves. -/
def checkDelta (history : History) (pm25 : Nat) : Bool × History :=
  match history.Avg with
  | Except.error err =>
    if err = HistErr.ErrEmpty then (true, history.Add pm25)
    else (false, history)
  | Except.ok avg =>
    let passed := decide (|avg - (pm25 : ℚ)| < maxDeltaPM25)
    if passed then (true, history.Add pm25)
    else (false, history)

/-! ## The serial link and the driver state -/

/-- A handle returned by `serial.OpenPort`: which open produced it, and whether
`Close` has been called on it. -/
structure Port where
  id : Nat
  closed : Bool
  deriving DecidableEq, Repr

/-- The result `(n, err)` of one `Read`: the bytes the device has ready, or an
error. The port reads through `os.File`, whose `Read` returns `io.EOF` when it
got no byte for a non-empty slice: the answers the driver can receive are
`fail` and `data bytes` with `bytes` not empty. -/
inductive ReadRes where
  | data (bytes : List Byte)
  | fail
  deriving DecidableEq, Repr

/-- The behaviour of the serial device: the answer to the k-th call of each kind. -/
structure Link where
  flushFails : Nat → Bool
  read : Nat → ReadRes
  openFails : Nat → Bool

/-- The lines `Get` and its helpers write with `log.Printf`. -/
inductive LogMsg where
  | failedOpen
  | incorrectLen (a : Nat)
  | incorrectHeader
  | checksumFailure
  | deltaFailed (pm25 : Nat)
  deriving DecidableEq, Repr

/-- What the driver does to the outside and to its filter, in order. -/
inductive Event where
  | flush
  | read
  | close
  | openPort
  | checkDelta (pm25 : Nat)
  | log (msg : LogMsg)
  deriving DecidableEq, Repr

/-- The struct `PMS7003`, with the number of calls issued on the link so far and
the record of events. -/
structure State where
  port : Port
  buf : Buf
  history : History
  maxRetry : Nat
  flushes : Nat
  reads : Nat
  opens : Nat
  trace : List Event

/-- The error values `Get` returns. -/
inductive GetErr where
  | onFlush
  | onRead
  | invalid
  deriving DecidableEq, Repr

/-- The triple `(uint16, uint16, error)` returned by `Get`. -/
structure Ret where
  pm25 : Nat
  pm10 : Nat
  err : Option GetErr
  deriving DecidableEq, Repr

/-- The method `open`: the port field is replaced only when `OpenPort` succeeds. -/
def State.openPort (link : Link) (st : State) : Bool × State :=
  let st1 := { st with opens := st.opens + 1, trace := st.trace ++ [Event.openPort] }
  if link.openFails st.opens then (true, st1)
  else (false, { st1 with port := ⟨st.opens + 1, false⟩ })

/-- The call `p.port.Close()`. -/
def State.closePort (st : State) : State :=
  { st with port := { st.port with closed := true }, trace := st.trace ++ [Event.close] }

/-- The copy a successful `Read(p.buf[a:])` makes: at most `128 - a` bytes land
at offsets `a, a+1, ...`; the rest of the buffer keeps its contents. -/
def writeAt (buf : Buf) (a : Nat) (bytes : List Byte) : Buf :=
  fun i => if a ≤ i.val then ((bytes.take (128 - a))[i.val - a]?).getD (buf i) else buf i

/-- The byte count `n` of a successful `Read(p.buf[a:])`. -/
def readCount (a : Nat) (bytes : List Byte) : Nat := (bytes.take (128 - a)).length

/-- How the inner loop `for a < 32 { ... }` of `Get` ends. -/
inductive LoopEnd where
  | complete (a : Nat)
  | failed
  | pending (a : Nat)
  deriving DecidableEq, Repr

/-- The inner loop of `Get` (lines 75-86) started with count `a`, allowed at
most `fuel` calls of `Read`. `pending a` means the loop is still running, with
count `a`, after `fuel` reads. On a read error the port is closed and reopened
(lines 79-82) before the loop is left. -/
def readLoop (link : Link) : Nat → Nat → State → LoopEnd × State
  | 0, a, st => if a < 32 then (LoopEnd.pending a, st) else (LoopEnd.complete a, st)
  | fuel + 1, a, st =>
    if a < 32 then
      let st1 := { st with reads := st.reads + 1, trace := st.trace ++ [Event.read] }
      match link.read st.reads with
      | ReadRes.fail =>
        let st2 := st1.closePort
        let (failed, st3) := st2.openPort link
        if failed then (LoopEnd.failed, { st3 with trace := st3.trace ++ [Event.log LogMsg.failedOpen] })
        else (LoopEnd.failed, st3)
      | ReadRes.data bytes =>
        readLoop link fuel (a + readCount a bytes) { st1 with buf := writeAt st.buf a bytes }
    else (LoopEnd.complete a, st)

/-- Lines 88-111 of `Get`: what one attempt does once the read loop has left
`a` bytes in the buffer. `none` stands for `continue`. -/
def afterRead (a : Nat) (st : State) : Option Ret × State :=
  if a ≠ 32 then
    (none, { st with trace := st.trace ++ [Event.log (LogMsg.incorrectLen a)] })
  else if headerRejects st.buf then
    (none, { st with trace := st.trace ++ [Event.log LogMsg.incorrectHeader] })
  else if checksumRejects st.buf then
    (none, { st with trace := st.trace ++ [Event.log LogMsg.checksumFailure] })
  else
    let pm25 := be16 (byteAt st.buf 6) (byteAt st.buf 7)
    let pm10 := be16 (byteAt st.buf 8) (byteAt st.buf 9)
    let (passed, history) := checkDelta st.history pm25
    let st1 := { st with history := history, trace := st.trace ++ [Event.checkDelta pm25] }
    if !passed then
      (none, { st1 with trace := st1.trace ++ [Event.log (LogMsg.deltaFailed pm25)] })
    else (some ⟨pm25, pm10, none⟩, st1)

/-- How one iteration of the outer loop of `Get` ends. -/
inductive Step where
  | ret (r : Ret)
  | next
  | stalled
  deriving DecidableEq, Repr

/-- One iteration of the outer loop of `Get` (lines 71-111). -/
def attempt (link : Link) (fuel : Nat) (st : State) : Step × State :=
  let st1 := { st with flushes := st.flushes + 1, trace := st.trace ++ [Event.flush] }
  if link.flushFails st.flushes then (Step.ret ⟨0, 0, some GetErr.onFlush⟩, st1)
  else
    match readLoop link fuel 0 st1 with
    | (LoopEnd.failed, st2) => (Step.ret ⟨0, 0, some GetErr.onRead⟩, st2)
    | (LoopEnd.pending _, st2) => (Step.stalled, st2)
    | (LoopEnd.complete a, st2) =>
      match afterRead a st2 with
      | (some r, st3) => (Step.ret r, st3)
      | (none, st3) => (Step.next, st3)

/-- The loop `for i := 0; i < p.maxRetry; i++` with `n` iterations left, and the
return after it. The result is `none` when a read loop is still running after
`fuel` reads. -/
def getLoop (link : Link) (fuel : Nat) : Nat → State → Option Ret × State
  | 0, st => (some ⟨0, 0, some GetErr.invalid⟩, st)
  | n + 1, st =>
    match attempt link fuel st with
    | (Step.ret r, st1) => (some r, st1)
    | (Step.stalled, st1) => (none, st1)
    | (Step.next, st1) => getLoop link fuel n st1

/-- The method `Get`. -/
def Get (link : Link) (fuel : Nat) (st : State) : Option Ret × State :=
  getLoop link fuel st.maxRetry st

/-- The constructor `NewPMS7003`: `none` stands for the `nil` it returns when the
port cannot be opened. -/
def NewPMS7003 (link : Link) : Option State :=
  let p : State := ⟨⟨0, true⟩, fun _ => 0, NewHistory 10, 10, 0, 0, 0, []⟩
  match p.openPort link with
  | (true, _) => none
  | (false, p1) => some p1

/-! ## Definitions used to state the properties -/

/-- The outlier filter as the specification words it: an empty history accepts
unconditionally and is seeded; otherwise the value is accepted exactly when it
lies within 150 of the mean of the held values, it is added only when accepted,
and a rejected value leaves the history as it was. -/
def specCheck (history : History) (pm25 : Nat) : Bool × History :=
  if history.list = [] then (true, history.Add pm25)
  else if |((history.list.sum : ℚ) / (history.list.length : ℚ)) - (pm25 : ℚ)| < 150 then
    (true, history.Add pm25)
  else (false, history)

/-- Whether the read loop has been left (with a count or on a read error). -/
def LoopEnd.stopped : LoopEnd → Bool
  | LoopEnd.complete _ => true
  | LoopEnd.failed => true
  | LoopEnd.pending _ => false

/-- The state after the call `p.port.Flush()` of an attempt. -/
def State.flushed (st : State) : State :=
  { st with flushes := st.flushes + 1, trace := st.trace ++ [Event.flush] }

/-- An attempt started in `st` is rejected locally: its flush succeeds, its read
loop is left with a count `a` and no read error, and then the length test, the
header test, the checksum test or the outlier filter turns the frame down. -/
def rejectedLocally (link : Link) (fuel : Nat) (st : State) : Bool :=
  !link.flushFails st.flushes &&
    match readLoop link fuel 0 st.flushed with
    | (LoopEnd.complete a, st2) =>
      a != 32 || headerRejects st2.buf || checksumRejects st2.buf ||
        !(checkDelta st2.history (be16 (byteAt st2.buf 6) (byteAt st2.buf 7))).1
    | _ => false

/-- The state in which attempt number `j` (from 0) of a call started in `st` begins. -/
def stateBefore (link : Link) (fuel : Nat) (st : State) : Nat → State
  | 0 => st
  | j + 1 => (attempt link fuel (stateBefore link fuel st j)).2

/-- The bytes the reads of one run of the read loop deliver, in arrival order:
the loop starts with count `a` and its first read is the `k`-th of the link. -/
def arrived (link : Link) : Nat → Nat → Nat → List Byte
  | 0, _, _ => []
  | fuel + 1, a, k =>
    if a < 32 then
      match link.read k with
      | ReadRes.fail => []
      | ReadRes.data bytes => bytes.take (128 - a) ++ arrived link fuel (a + readCount a bytes) (k + 1)
    else []

/-- Between `st` and `st'` no read failed and the port was left alone: the
handle and the number of opens are the same, the reads issued did not fail, and
the trace only grew. -/
def Quiet (link : Link) (st st' : State) : Prop :=
  st'.port = st.port ∧ st'.opens = st.opens ∧ st'.maxRetry = st.maxRetry ∧
    st.reads ≤ st'.reads ∧
    (∀ k, st.reads ≤ k → k < st'.reads → link.read k ≠ ReadRes.fail) ∧
    ∃ mid, st'.trace = st.trace ++ mid

/-- Between `st` and `st'` exactly one read failed, the last one issued, and it
was followed by `Close`, one `OpenPort` and nothing else on the link; the port
field was replaced only if that open succeeded, and the history was not touched. -/
def AbortedOnRead (link : Link) (st st' : State) : Prop :=
  st.reads < st'.reads ∧ link.read (st'.reads - 1) = ReadRes.fail ∧
    (∀ k, st.reads ≤ k → k + 1 < st'.reads → link.read k ≠ ReadRes.fail) ∧
    st'.history = st.history ∧ st'.opens = st.opens + 1 ∧
    st'.port = (if link.openFails st.opens then { st.port with closed := true }
                else ⟨st.opens + 1, false⟩) ∧
    ∃ mid, st'.trace = st.trace ++ mid ++ [Event.read, Event.close, Event.openPort]
      ++ (if link.openFails st.opens then [Event.log LogMsg.failedOpen] else [])

/-- A well-formed frame: pm2.5 = 150, pm10 = 10, checksum 0x014b. -/
def goodFrame : List Byte :=
  [0x42, 0x4d, 0, 28, 0, 0, 0, 150, 0, 10, 0, 0, 0, 0, 0, 0,
   0, 0, 0, 0, 0, 0, 0, 0, 0, 0, 0, 0, 0, 0, 0x01, 0x4b]

/-- The frame `goodFrame` with its last checksum byte off by one. -/
def badSumFrame : List Byte :=
  [0x42, 0x4d, 0, 28, 0, 0, 0, 150, 0, 10, 0, 0, 0, 0, 0, 0,
   0, 0, 0, 0, 0, 0, 0, 0, 0, 0, 0, 0, 0, 0, 0x01, 0x4c]

/-- A frame whose first byte is 0x43 instead of 0x42, the other three header
bytes right, and the checksum (0x014c) matching its bytes. -/
def badHeaderFrame : List Byte :=
  [0x43, 0x4d, 0, 28, 0, 0, 0, 150, 0, 10, 0, 0, 0, 0, 0, 0,
   0, 0, 0, 0, 0, 0, 0, 0, 0, 0, 0, 0, 0, 0, 0x01, 0x4c]

/-- Thirty-three bytes: `goodFrame` followed by one more byte. -/
def longChunk : List Byte := goodFrame ++ [7]

/-- A link on which nothing ever fails and every read delivers the same bytes. -/
def steadyLink (bytes : List Byte) : Link :=
  ⟨fun _ => false, fun _ => ReadRes.data bytes, fun _ => false⟩

/-- A link on which every read fails and the port cannot be opened again. -/
def deadLink : Link :=
  ⟨fun _ => false, fun _ => ReadRes.fail, fun _ => true⟩

/-- A link whose first read delivers `badSumFrame` and whose second read fails;
flushing and opening succeed. -/
def flakyLink : Link :=
  ⟨fun _ => false, fun k => if k = 0 then ReadRes.data badSumFrame else ReadRes.fail,
    fun _ => false⟩

/-- A driver as `NewPMS7003` leaves it after a successful open. -/
def freshDriver : State :=
  ⟨⟨1, false⟩, fun _ => 0, NewHistory 10, 10, 0, 0, 1, [Event.openPort]⟩

end PMS7003

/-! ## The auto-air application -/

namespace AutoAir

/-- The constant `trigOnPM25`. -/
def trigOnPM25 : Nat := 120

/-- The constant `trigOffPm25`. -/
def trigOffPm25 : Nat := 100

/-- The fields of `autoAir` that `clean` works on: the on/off state and the
angles sent to the servo so far. -/
structure AutoAirState where
  state : Bool
  rolls : List Int
  deriving DecidableEq, Repr

/-- The method `on`. -/
def AutoAirState.on (a : AutoAirState) : AutoAirState :=
  { state := true, rolls := a.rolls ++ [0, -45] }

/-- The method `off`. -/
def AutoAirState.off (a : AutoAirState) : AutoAirState :=
  { state := false, rolls := a.rolls ++ [0, 45] }

/-- One iteration of the loop `for pm25 := range a.chClean` of `clean`
(lines 120-141), with `hour` the value of `time.Now().Hour()`. -/
def cleanStep (hour : Nat) (pm25 : Nat) (a : AutoAirState) : AutoAirState :=
  if pm25 < 400 ∧ (hour ≥ 20 ∨ hour < 8) then
    if a.state then a.off else a
  else if !a.state ∧ pm25 ≥ trigOnPM25 then a.on
  else if a.state ∧ pm25 < trigOffPm25 then a.off
  else a

/-- The struct `pm25Response` shared by the sensors server and auto-air. -/
structure pm25Response where
  PM25 : Nat
  ErrorMsg : String
  deriving DecidableEq, Repr

/-- The handler `pm25Handler` of the sensors server, past the nil check: the
response it marshals for a result `(pm25, _, err)` of `Get`, `err` given by its text. -/
def pm25Handler (pm25 : Nat) (err : Option String) : pm25Response :=
  match err with
  | some e => { PM25 := 0, ErrorMsg := "failed to get pm2.5, error: " ++ e }
  | none => { PM25 := pm25, ErrorMsg := "" }

/-- The result `(resp, err)` of `http.Get`: a response and no error, or an error
with `resp` nil or not (the client returns a response beside the error only
when following redirects fails). -/
inductive HttpGet where
  | response
  | failed (err : String) (withResp : Bool)
  deriving DecidableEq, Repr

/-- What the calls made by `getPM25` give: the result of `http.Get`, the error of
`ioutil.ReadAll`, and the outcome of `json.Unmarshal` on the body. -/
structure Exchange where
  get : HttpGet
  readErr : Option String
  unmarshal : Except String pm25Response

/-- The method `getPM25`; `none` stands for a panic. When `http.Get` fails, line
147 reads `resp.Status` before the `return`, which is a nil dereference unless
a response came with the error. The variable `err` returned at line 166 is the
one assigned by `ioutil.ReadAll` at line 152. -/
def getPM25 (x : Exchange) : Option (Nat × Option String) :=
  match x.get with
  | HttpGet.failed e withResp =>
    if withResp then some (0, some e) else none
  | HttpGet.response =>
    let err := x.readErr
    if err.isSome then some (0, err)
    else
      match x.unmarshal with
      | Except.error e => some (0, some e)
      | Except.ok pm25Resp =>
        if pm25Resp.ErrorMsg ≠ "" then some (0, err)
        else some (pm25Resp.PM25, none)

/-- How one iteration of the loop of `detect` ends. -/
inductive Detected where
  | panicked
  | skipped
  | sent (pm25 : Nat)
  deriving DecidableEq, Repr

/-- One iteration of the loop of `detect`: a value is sent on `chClean` exactly
when `getPM25` returns a nil error. -/
def detectStep (x : Exchange) : Detected :=
  match getPM25 x with
  | none => Detected.panicked
  | some (_, some _) => Detected.skipped
  | some (pm25, none) => Detected.sent pm25

end AutoAir

/-! ## Properties of the validation step -/

namespace PMS7003

theorem byteAt_lt (buf : Buf) (i : Nat) : byteAt buf i < 256 := by
  unfold byteAt
  split
  · exact (buf _).isLt
  · decide

theorem be16_eq (hi lo : Nat) (hhi : hi < 256) (hlo : lo < 256) :
    be16 hi lo = 256 * hi + lo := by
  unfold be16 u16
  have hshift : hi <<< 8 = 2 ^ 8 * hi := by rw [Nat.shiftLeft_eq]; ring
  have hsmall : 2 ^ 8 * hi < 65536 := by omega
  have hlo8 : lo < 2 ^ 8 := by omega
  rw [hshift, Nat.mod_eq_of_lt hsmall, ← Nat.mul_add_lt_is_or hlo8 hi]

theorem foldl_wrapping_sum (f : Nat → Nat) (l : List Nat) (c : Nat) :
    l.foldl (fun checksum i => u16 (checksum + f i)) (u16 c) = u16 (c + (l.map f).sum) := by
  induction l generalizing c with
  | nil => simp
  | cons x xs ih =>
    simp only [List.foldl_cons, List.map_cons, List.sum_cons]
    have hstep : u16 (u16 c + f x) = u16 (c + f x) := by
      unfold u16; exact Nat.mod_add_mod c 65536 (f x)
    rw [hstep, ih (c + f x), Nat.add_assoc]

theorem checksumLoop_eq (buf : Buf) : checksumLoop buf = frameSum buf % 65536 := by
  have h := foldl_wrapping_sum (byteAt buf) (List.range 29) 0
  simpa [checksumLoop, frameSum, u16] using h

theorem checksumRejects_iff (buf : Buf) :
    checksumRejects buf = true ↔ frameSum buf % 65536 ≠ 256 * byteAt buf 30 + byteAt buf 31 := by
  unfold checksumRejects
  rw [checksumLoop_eq, be16_eq _ _ (byteAt_lt buf 30) (byteAt_lt buf 31)]
  simp

/-- C1. A buffer whose bytes 0..3 are 0x42, 0x4D, 0, 28 and whose bytes 30..31,
read big-endian, equal the sum of bytes 0..28 modulo 65536 passes the header
test and the checksum test of `Get`, and is decoded to pm25 = 256*b[6]+b[7]
and pm10 = 256*b[8]+b[9]. -/
theorem validate_wellformed (buf : Buf)
    (h0 : byteAt buf 0 = 0x42) (h1 : byteAt buf 1 = 0x4d)
    (h2 : byteAt buf 2 = 0) (h3 : byteAt buf 3 = 28)
    (hsum : 256 * byteAt buf 30 + byteAt buf 31 = frameSum buf % 65536) :
    headerRejects buf = false ∧ checksumRejects buf = false ∧
      validate buf = Validation.decoded (256 * byteAt buf 6 + byteAt buf 7)
        (256 * byteAt buf 8 + byteAt buf 9) := by
  have hh : headerRejects buf = false := by simp [headerRejects, h0, h1, h2, h3]
  have hc : checksumRejects buf = false := by
    cases hcr : checksumRejects buf with
    | false => rfl
    | true => exact absurd hsum.symm ((checksumRejects_iff buf).mp hcr)
  refine ⟨hh, hc, ?_⟩
  simp only [validate, hh, hc, Bool.false_eq_true, if_false]
  rw [be16_eq _ _ (byteAt_lt buf 6) (byteAt_lt buf 7),
    be16_eq _ _ (byteAt_lt buf 8) (byteAt_lt buf 9)]

/-- C1, at the frame `goodFrame`: it is decoded to pm2.5 = 150 and pm10 = 10. -/
theorem validate_wellformed_witness :
    validate (bufOfList goodFrame) = Validation.decoded (256 * 0 + 150) (256 * 0 + 10) :=
  (validate_wellformed (bufOfList goodFrame) (by decide) (by decide) (by decide) (by decide)
    (by decide)).2.2

/-- C2. The frame `badHeaderFrame` has a wrong byte 0 (0x43), yet the header test
of `Get` does not reject it: it passes the checksum test too and is decoded to
pm2.5 = 150, pm10 = 10, and on a fresh driver the attempt returns that reading. -/
theorem header_single_mismatch_accepted :
    byteAt (bufOfList badHeaderFrame) 0 ≠ 0x42 ∧
      headerRejects (bufOfList badHeaderFrame) = false ∧
      validate (bufOfList badHeaderFrame) = Validation.decoded 150 10 ∧
      (Get (steadyLink badHeaderFrame) 32 freshDriver).1 = some ⟨150, 10, none⟩ := by
  refine ⟨by decide, by decide, by decide, ?_⟩
  rfl

/-- C3. When the sum of bytes 0..28 modulo 65536 differs from bytes 30..31 read
big-endian, the validation step decodes nothing: the frame is rejected (by the
checksum test whenever the header test lets it through), the attempt goes on to
the next iteration, and the driver state is as before but for the line logged:
the history is untouched and `checkDelta` is not called. -/
theorem checksum_mismatch_rejected (st : State)
    (hsum : frameSum st.buf % 65536 ≠ 256 * byteAt st.buf 30 + byteAt st.buf 31) :
    (validate st.buf = Validation.framing ∨ validate st.buf = Validation.checksum) ∧
      (headerRejects st.buf = false → validate st.buf = Validation.checksum) ∧
      ∃ msg, (msg = LogMsg.incorrectHeader ∨ msg = LogMsg.checksumFailure) ∧
        afterRead 32 st = (none, { st with trace := st.trace ++ [Event.log msg] }) := by
  have hc : checksumRejects st.buf = true := (checksumRejects_iff st.buf).mpr hsum
  cases hh : headerRejects st.buf with
  | true =>
    refine ⟨Or.inl (by simp [validate, hh]), by simp, LogMsg.incorrectHeader, Or.inl rfl, ?_⟩
    simp [afterRead, hh]
  | false =>
    refine ⟨Or.inr (by simp [validate, hh, hc]), fun _ => by simp [validate, hh, hc],
      LogMsg.checksumFailure, Or.inr rfl, ?_⟩
    simp [afterRead, hh, hc]

/-- C3, at the frame `badSumFrame` held by a fresh driver. -/
theorem checksum_mismatch_rejected_witness :
    validate (bufOfList badSumFrame) = Validation.checksum :=
  (checksum_mismatch_rejected { freshDriver with buf := bufOfList badSumFrame }
    (by decide)).2.1 (by decide)

/-! ## The outlier filter -/

theorem History.Avg_of_nil (h : History) (hl : h.list = []) :
    h.Avg = Except.error HistErr.ErrEmpty := by
  simp [History.Avg, hl]

theorem History.Avg_of_ne_nil (h : History) (hl : h.list ≠ []) :
    h.Avg = Except.ok ((h.list.sum : ℚ) / (h.list.length : ℚ)) := by
  have hlen : h.list.length ≠ 0 := by simpa using hl
  simp [History.Avg, hlen]

/-- C4. The method `checkDelta` is the specified outlier filter: on an empty
history it accepts and adds the value; on a non-empty history with mean A it
accepts exactly when |A - pm25| < 150, adds the value exactly when it accepts,
and leaves the history unchanged when it rejects. -/
theorem checkDelta_eq_specCheck (history : History) (pm25 : Nat) :
    checkDelta history pm25 = specCheck history pm25 := by
  by_cases hl : history.list = []
  · simp [checkDelta, specCheck, History.Avg_of_nil history hl, hl]
  · simp only [checkDelta, specCheck, History.Avg_of_ne_nil history hl, hl, if_false,
      maxDeltaPM25]
    by_cases hp : |((history.list.sum : ℚ) / (history.list.length : ℚ)) - (pm25 : ℚ)| < 150
    · simp [hp]
    · simp [hp]

end PMS7003

/-! ## The read loop -/

namespace PMS7003

theorem readLoop_zero (link : Link) (a : Nat) (st : State) :
    readLoop link 0 a st
      = if a < 32 then (LoopEnd.pending a, st) else (LoopEnd.complete a, st) := rfl

theorem readLoop_succ_done (link : Link) (fuel a : Nat) (st : State) (ha : ¬ a < 32) :
    readLoop link (fuel + 1) a st = (LoopEnd.complete a, st) := by
  simp [readLoop, ha]

theorem readLoop_succ_data (link : Link) (fuel a : Nat) (st : State) (ha : a < 32)
    (bytes : List Byte) (hr : link.read st.reads = ReadRes.data bytes) :
    readLoop link (fuel + 1) a st
      = readLoop link fuel (a + readCount a bytes)
          { st with reads := st.reads + 1, trace := st.trace ++ [Event.read],
                    buf := writeAt st.buf a bytes } := by
  simp [readLoop, ha, hr]

theorem readLoop_succ_fail (link : Link) (fuel a : Nat) (st : State) (ha : a < 32)
    (hr : link.read st.reads = ReadRes.fail) :
    readLoop link (fuel + 1) a st
      = (LoopEnd.failed,
          { st with
            reads := st.reads + 1
            opens := st.opens + 1
            port := if link.openFails st.opens then { st.port with closed := true }
                    else ⟨st.opens + 1, false⟩
            trace := st.trace ++ [Event.read, Event.close, Event.openPort]
              ++ (if link.openFails st.opens then [Event.log LogMsg.failedOpen] else []) }) := by
  cases ho : link.openFails st.opens <;>
    simp [readLoop, ha, hr, State.openPort, State.closePort, ho]

theorem readLoop_keeps (link : Link) (fuel : Nat) :
    ∀ (a : Nat) (st : State),
      (readLoop link fuel a st).2.history = st.history ∧
      (readLoop link fuel a st).2.maxRetry = st.maxRetry ∧
      (readLoop link fuel a st).2.flushes = st.flushes ∧
      st.reads ≤ (readLoop link fuel a st).2.reads := by
  induction fuel with
  | zero =>
    intro a st
    rw [readLoop_zero]
    split <;> simp
  | succ fuel ih =>
    intro a st
    by_cases ha : a < 32
    · cases hr : link.read st.reads with
      | fail => rw [readLoop_succ_fail link fuel a st ha hr]; simp
      | data bytes =>
        rw [readLoop_succ_data link fuel a st ha bytes hr]
        obtain ⟨h1, h2, h3, h4⟩ := ih (a + readCount a bytes)
          { st with reads := st.reads + 1, trace := st.trace ++ [Event.read],
                    buf := writeAt st.buf a bytes }
        exact ⟨h1, h2, h3, by simp at h4; omega⟩
    · rw [readLoop_succ_done link fuel a st ha]; simp

theorem readLoop_quiet (link : Link) (fuel : Nat) :
    ∀ (a : Nat) (st : State), (readLoop link fuel a st).1 ≠ LoopEnd.failed →
      (readLoop link fuel a st).2.port = st.port ∧
      (readLoop link fuel a st).2.opens = st.opens ∧
      ∀ k, st.reads ≤ k → k < (readLoop link fuel a st).2.reads → link.read k ≠ ReadRes.fail := by
  induction fuel with
  | zero =>
    intro a st _
    rw [readLoop_zero]
    split <;> exact ⟨rfl, rfl, fun k h1 h2 => by simp at h2; omega⟩
  | succ fuel ih =>
    intro a st hne
    by_cases ha : a < 32
    · cases hr : link.read st.reads with
      | fail => rw [readLoop_succ_fail link fuel a st ha hr] at hne; simp at hne
      | data bytes =>
        rw [readLoop_succ_data link fuel a st ha bytes hr] at hne ⊢
        obtain ⟨h1, h2, h3⟩ := ih _ _ hne
        refine ⟨h1, h2, fun k hk1 hk2 => ?_⟩
        by_cases hk : k = st.reads
        · rw [hk, hr]; simp
        · exact h3 k (by simp; omega) hk2
    · rw [readLoop_succ_done link fuel a st ha]
      exact ⟨rfl, rfl, fun k h1 h2 => by simp at h2; omega⟩

theorem readLoop_failed (link : Link) (fuel : Nat) :
    ∀ (a : Nat) (st : State), (readLoop link fuel a st).1 = LoopEnd.failed →
      st.reads < (readLoop link fuel a st).2.reads ∧
      link.read ((readLoop link fuel a st).2.reads - 1) = ReadRes.fail ∧
      (∀ k, st.reads ≤ k → k + 1 < (readLoop link fuel a st).2.reads →
        link.read k ≠ ReadRes.fail) ∧
      (readLoop link fuel a st).2.opens = st.opens + 1 ∧
      (readLoop link fuel a st).2.port
        = (if link.openFails st.opens then { st.port with closed := true }
           else ⟨st.opens + 1, false⟩) ∧
      ∃ mid, (readLoop link fuel a st).2.trace
        = st.trace ++ mid ++ [Event.read, Event.close, Event.openPort]
          ++ (if link.openFails st.opens then [Event.log LogMsg.failedOpen] else []) := by
  induction fuel with
  | zero =>
    intro a st h
    rw [readLoop_zero] at h
    split at h <;> simp at h
  | succ fuel ih =>
    intro a st h
    by_cases ha : a < 32
    · cases hr : link.read st.reads with
      | fail =>
        rw [readLoop_succ_fail link fuel a st ha hr]
        refine ⟨by simp, by simpa using hr, fun k h1 h2 => by simp at h2; omega, rfl, rfl,
          [], by simp⟩
      | data bytes =>
        rw [readLoop_succ_data link fuel a st ha bytes hr] at h ⊢
        obtain ⟨h1, h2, h3, h4, h5, mid, h6⟩ := ih _ _ h
        refine ⟨by simp at h1; omega, h2, fun k hk1 hk2 => ?_, h4, h5, Event.read :: mid, ?_⟩
        · by_cases hk : k = st.reads
          · rw [hk, hr]; simp
          · exact h3 k (by simp; omega) hk2
        · rw [h6]; simp
    · rw [readLoop_succ_done link fuel a st ha] at h; simp at h

end PMS7003

/-! ## Attempts and the retry loop -/

namespace PMS7003

theorem readLoop_trace (link : Link) (fuel : Nat) :
    ∀ (a : Nat) (st : State), ∃ mid, (readLoop link fuel a st).2.trace = st.trace ++ mid := by
  induction fuel with
  | zero =>
    intro a st
    rw [readLoop_zero]
    split <;> exact ⟨[], by simp⟩
  | succ fuel ih =>
    intro a st
    by_cases ha : a < 32
    · cases hr : link.read st.reads with
      | fail =>
        rw [readLoop_succ_fail link fuel a st ha hr]
        exact ⟨[Event.read, Event.close, Event.openPort]
          ++ (if link.openFails st.opens then [Event.log LogMsg.failedOpen] else []),
          by simp only [List.append_assoc]⟩
      | data bytes =>
        rw [readLoop_succ_data link fuel a st ha bytes hr]
        obtain ⟨mid, h⟩ := ih (a + readCount a bytes)
          { st with reads := st.reads + 1, trace := st.trace ++ [Event.read],
                    buf := writeAt st.buf a bytes }
        exact ⟨Event.read :: mid, by rw [h]; simp⟩
    · rw [readLoop_succ_done link fuel a st ha]; exact ⟨[], by simp⟩

theorem checkDelta_rejects (history : History) (pm25 : Nat)
    (h : (checkDelta history pm25).1 = false) : (checkDelta history pm25).2 = history := by
  unfold checkDelta at h ⊢
  split at h
  · split at h
    · simp at h
    · rename_i hne; simp [hne]
  · rename_i avg _
    by_cases hp : |avg - (pm25 : ℚ)| < maxDeltaPM25
    · simp [hp] at h
    · simp [hp]

theorem afterRead_frame (a : Nat) (st : State) :
    (afterRead a st).2.port = st.port ∧ (afterRead a st).2.opens = st.opens ∧
      (afterRead a st).2.maxRetry = st.maxRetry ∧ (afterRead a st).2.reads = st.reads ∧
      (afterRead a st).2.flushes = st.flushes ∧
      (∃ mid, (afterRead a st).2.trace = st.trace ++ mid) ∧
      ((afterRead a st).1 = none → (afterRead a st).2.history = st.history) := by
  unfold afterRead
  by_cases h1 : a ≠ 32
  · rw [if_pos h1]; exact ⟨rfl, rfl, rfl, rfl, rfl, ⟨_, rfl⟩, fun _ => rfl⟩
  · rw [if_neg h1]
    by_cases h2 : headerRejects st.buf = true
    · rw [if_pos h2]; exact ⟨rfl, rfl, rfl, rfl, rfl, ⟨_, rfl⟩, fun _ => rfl⟩
    · rw [if_neg h2]
      by_cases h3 : checksumRejects st.buf = true
      · rw [if_pos h3]; exact ⟨rfl, rfl, rfl, rfl, rfl, ⟨_, rfl⟩, fun _ => rfl⟩
      · rw [if_neg h3]
        cases hp : (checkDelta st.history (be16 (byteAt st.buf 6) (byteAt st.buf 7))).1 with
        | true =>
          simp [hp]
        | false =>
          simp [hp, checkDelta_rejects _ _ hp]

theorem attempt_flush_fail (link : Link) (fuel : Nat) (st : State)
    (hf : link.flushFails st.flushes = true) :
    attempt link fuel st = (Step.ret ⟨0, 0, some GetErr.onFlush⟩, st.flushed) := by
  simp [attempt, hf, State.flushed]

theorem attempt_read_fail (link : Link) (fuel : Nat) (st : State)
    (hf : link.flushFails st.flushes = false)
    (hl : (readLoop link fuel 0 st.flushed).1 = LoopEnd.failed) :
    attempt link fuel st
      = (Step.ret ⟨0, 0, some GetErr.onRead⟩, (readLoop link fuel 0 st.flushed).2) := by
  have hpair : readLoop link fuel 0 st.flushed
      = (LoopEnd.failed, (readLoop link fuel 0 st.flushed).2) := by
    rw [← hl]
  unfold attempt
  simp only [hf, Bool.false_eq_true, if_false]
  change (match readLoop link fuel 0 st.flushed with
    | (LoopEnd.failed, st2) => (Step.ret ⟨0, 0, some GetErr.onRead⟩, st2)
    | (LoopEnd.pending _, st2) => (Step.stalled, st2)
    | (LoopEnd.complete a, st2) =>
      match afterRead a st2 with
      | (some r, st3) => (Step.ret r, st3)
      | (none, st3) => (Step.next, st3)) = _
  rw [hpair]

theorem attempt_pending (link : Link) (fuel : Nat) (st : State)
    (hf : link.flushFails st.flushes = false) (a : Nat)
    (hl : (readLoop link fuel 0 st.flushed).1 = LoopEnd.pending a) :
    attempt link fuel st = (Step.stalled, (readLoop link fuel 0 st.flushed).2) := by
  have hpair : readLoop link fuel 0 st.flushed
      = (LoopEnd.pending a, (readLoop link fuel 0 st.flushed).2) := by
    rw [← hl]
  unfold attempt
  simp only [hf, Bool.false_eq_true, if_false]
  change (match readLoop link fuel 0 st.flushed with
    | (LoopEnd.failed, st2) => (Step.ret ⟨0, 0, some GetErr.onRead⟩, st2)
    | (LoopEnd.pending _, st2) => (Step.stalled, st2)
    | (LoopEnd.complete a, st2) =>
      match afterRead a st2 with
      | (some r, st3) => (Step.ret r, st3)
      | (none, st3) => (Step.next, st3)) = _
  rw [hpair]

theorem attempt_complete (link : Link) (fuel : Nat) (st : State)
    (hf : link.flushFails st.flushes = false) (a : Nat)
    (hl : (readLoop link fuel 0 st.flushed).1 = LoopEnd.complete a) :
    attempt link fuel st
      = (match (afterRead a (readLoop link fuel 0 st.flushed).2).1 with
          | some r => Step.ret r
          | none => Step.next,
         (afterRead a (readLoop link fuel 0 st.flushed).2).2) := by
  have hpair : readLoop link fuel 0 st.flushed
      = (LoopEnd.complete a, (readLoop link fuel 0 st.flushed).2) := by
    rw [← hl]
  unfold attempt
  simp only [hf, Bool.false_eq_true, if_false]
  change (match readLoop link fuel 0 st.flushed with
    | (LoopEnd.failed, st2) => (Step.ret ⟨0, 0, some GetErr.onRead⟩, st2)
    | (LoopEnd.pending _, st2) => (Step.stalled, st2)
    | (LoopEnd.complete a, st2) =>
      match afterRead a st2 with
      | (some r, st3) => (Step.ret r, st3)
      | (none, st3) => (Step.next, st3)) = _
  rw [hpair]
  simp only
  cases h : afterRead a (readLoop link fuel 0 st.flushed).2 with
  | mk r st3 => cases r <;> rfl

end PMS7003

namespace PMS7003

theorem Quiet.refl (link : Link) (st : State) : Quiet link st st :=
  ⟨rfl, rfl, rfl, Nat.le_refl _, fun k h1 h2 => by omega, [], by simp⟩

theorem Quiet.trans {link : Link} {s1 s2 s3 : State} (h12 : Quiet link s1 s2)
    (h23 : Quiet link s2 s3) : Quiet link s1 s3 := by
  obtain ⟨a1, a2, a3, a4, a5, m1, a6⟩ := h12
  obtain ⟨b1, b2, b3, b4, b5, m2, b6⟩ := h23
  refine ⟨b1.trans a1, b2.trans a2, b3.trans a3, Nat.le_trans a4 b4, fun k h1 h2 => ?_,
    m1 ++ m2, by rw [b6, a6, List.append_assoc]⟩
  by_cases hk : k < s2.reads
  · exact a5 k h1 hk
  · exact b5 k (by omega) h2

theorem AbortedOnRead.after_quiet {link : Link} {s1 s2 s3 : State} (h12 : Quiet link s1 s2)
    (hh : s2.history = s1.history) (h23 : AbortedOnRead link s2 s3) :
    AbortedOnRead link s1 s3 := by
  obtain ⟨a1, a2, _, a4, a5, m1, a6⟩ := h12
  obtain ⟨b1, b2, b3, b4, b5, b6, m2, b7⟩ := h23
  refine ⟨by omega, b2, fun k h1 h2 => ?_, b4.trans hh, by omega, ?_, m1 ++ m2, ?_⟩
  · by_cases hk : k < s2.reads
    · exact a5 k h1 hk
    · exact b3 k (by omega) h2
  · rw [b6, a1, a2]
  · rw [b7, a6, a2]; simp only [List.append_assoc]

theorem flushed_quiet (link : Link) (st : State) : Quiet link st st.flushed :=
  ⟨rfl, rfl, rfl, Nat.le_refl _, fun k h1 h2 => by simp [State.flushed] at h2; omega,
    [Event.flush], rfl⟩

theorem readLoop_quiet_rel (link : Link) (fuel a : Nat) (st : State)
    (h : (readLoop link fuel a st).1 ≠ LoopEnd.failed) :
    Quiet link st (readLoop link fuel a st).2 := by
  obtain ⟨h1, h2, h3⟩ := readLoop_quiet link fuel a st h
  obtain ⟨_, k2, _, k4⟩ := readLoop_keeps link fuel a st
  exact ⟨h1, h2, k2, k4, h3, readLoop_trace link fuel a st⟩

theorem readLoop_aborted_rel (link : Link) (fuel a : Nat) (st : State)
    (h : (readLoop link fuel a st).1 = LoopEnd.failed) :
    AbortedOnRead link st (readLoop link fuel a st).2 := by
  obtain ⟨h1, h2, h3, h4, h5, h6⟩ := readLoop_failed link fuel a st h
  exact ⟨h1, h2, h3, (readLoop_keeps link fuel a st).1, h4, h5, h6⟩

theorem afterRead_quiet (link : Link) (a : Nat) (st : State) :
    Quiet link st (afterRead a st).2 := by
  obtain ⟨h1, h2, h3, h4, _, h6, _⟩ := afterRead_frame a st
  exact ⟨h1, h2, h3, by omega, fun k k1 k2 => by omega, h6⟩

theorem attempt_sound (link : Link) (fuel : Nat) (st : State) :
    ((attempt link fuel st).1 = Step.next →
        Quiet link st (attempt link fuel st).2 ∧
        (attempt link fuel st).2.history = st.history ∧
        (attempt link fuel st).2.flushes = st.flushes + 1) ∧
      (Quiet link st (attempt link fuel st).2 ∨
        ((attempt link fuel st).1 = Step.ret ⟨0, 0, some GetErr.onRead⟩ ∧
          AbortedOnRead link st (attempt link fuel st).2)) := by
  cases hf : link.flushFails st.flushes with
  | true =>
    rw [attempt_flush_fail link fuel st hf]
    exact ⟨fun h => by simp at h, Or.inl (flushed_quiet link st)⟩
  | false =>
    cases hl : (readLoop link fuel 0 st.flushed).1 with
    | failed =>
      rw [attempt_read_fail link fuel st hf hl]
      refine ⟨fun h => by simp at h, Or.inr ⟨rfl, ?_⟩⟩
      exact AbortedOnRead.after_quiet (flushed_quiet link st) rfl
        (readLoop_aborted_rel link fuel 0 st.flushed hl)
    | pending a =>
      rw [attempt_pending link fuel st hf a hl]
      have hq : Quiet link st (readLoop link fuel 0 st.flushed).2 :=
        Quiet.trans (flushed_quiet link st)
          (readLoop_quiet_rel link fuel 0 st.flushed (by rw [hl]; simp))
      exact ⟨fun h => by simp at h, Or.inl hq⟩
    | complete a =>
      rw [attempt_complete link fuel st hf a hl]
      have hq1 : Quiet link st (readLoop link fuel 0 st.flushed).2 :=
        Quiet.trans (flushed_quiet link st)
          (readLoop_quiet_rel link fuel 0 st.flushed (by rw [hl]; simp))
      have hq : Quiet link st (afterRead a (readLoop link fuel 0 st.flushed).2).2 :=
        Quiet.trans hq1 (afterRead_quiet link a _)
      obtain ⟨k1, _, k3, _⟩ := readLoop_keeps link fuel 0 st.flushed
      obtain ⟨_, _, _, _, f5, _, f7⟩ := afterRead_frame a (readLoop link fuel 0 st.flushed).2
      refine ⟨fun h => ⟨hq, ?_, ?_⟩, Or.inl hq⟩
      · have hnone : (afterRead a (readLoop link fuel 0 st.flushed).2).1 = none := by
          cases hr : (afterRead a (readLoop link fuel 0 st.flushed).2).1 with
          | none => rfl
          | some r => simp [hr] at h
        simp only
        rw [f7 hnone, k1]; rfl
      · simp only
        rw [f5, k3]; rfl

theorem getLoop_sound (link : Link) (fuel : Nat) :
    ∀ (n : Nat) (st : State),
      Quiet link st (getLoop link fuel n st).2 ∨
        ((getLoop link fuel n st).1 = some ⟨0, 0, some GetErr.onRead⟩ ∧
          AbortedOnRead link st (getLoop link fuel n st).2) := by
  intro n
  induction n with
  | zero => intro st; exact Or.inl (Quiet.refl link st)
  | succ n ih =>
    intro st
    obtain ⟨hnext, hany⟩ := attempt_sound link fuel st
    cases hs : (attempt link fuel st).1 with
    | ret r =>
      have hg : getLoop link fuel (n + 1) st = (some r, (attempt link fuel st).2) := by
        have hpair : attempt link fuel st = (Step.ret r, (attempt link fuel st).2) := by
          rw [← hs]
        rw [getLoop, hpair]
      rw [hg]
      rcases hany with hq | ⟨he, ha⟩
      · exact Or.inl hq
      · rw [hs] at he
        exact Or.inr ⟨by simpa using he, ha⟩
    | stalled =>
      have hg : getLoop link fuel (n + 1) st = (none, (attempt link fuel st).2) := by
        have hpair : attempt link fuel st = (Step.stalled, (attempt link fuel st).2) := by
          rw [← hs]
        rw [getLoop, hpair]
      rw [hg]
      rcases hany with hq | ⟨he, _⟩
      · exact Or.inl hq
      · rw [hs] at he; simp at he
    | next =>
      have hg : getLoop link fuel (n + 1) st = getLoop link fuel n (attempt link fuel st).2 := by
        have hpair : attempt link fuel st = (Step.next, (attempt link fuel st).2) := by
          rw [← hs]
        rw [getLoop, hpair]
      rw [hg]
      obtain ⟨hq, hh, _⟩ := hnext hs
      rcases ih (attempt link fuel st).2 with hq2 | ⟨he, ha⟩
      · exact Or.inl (Quiet.trans hq hq2)
      · exact Or.inr ⟨he, AbortedOnRead.after_quiet hq hh ha⟩

end PMS7003

/-! ## Transport failures and the retry budget -/

namespace PMS7003

/-- C5 as stated fails: on `deadLink` the first read fails and so does the
reopen; `Get` returns the read error, and the port the driver then holds is the
old handle, closed, not a freshly opened one. -/
theorem reopen_failure_keeps_closed_port :
    deadLink.read freshDriver.reads = ReadRes.fail ∧
      (Get deadLink 32 freshDriver).1 = some ⟨0, 0, some GetErr.onRead⟩ ∧
      freshDriver.port = ⟨1, false⟩ ∧
      (Get deadLink 32 freshDriver).2.port = ⟨1, true⟩ := by
  refine ⟨rfl, rfl, rfl, rfl⟩

/-- C5, amended. If a read issued during a call of `Get` fails, it is the last
read of the call: `Get` closes the port, calls `OpenPort` once and returns the
read error with (0, 0) from that attempt, with no flush or read after the
failing one; the history is unchanged; the driver holds a freshly opened port
when the reopen succeeds, and the old port, closed, when it fails. -/
theorem read_error_aborts (link : Link) (fuel : Nat) (st : State) (k : Nat)
    (hk : st.reads ≤ k) (hissued : k < (Get link fuel st).2.reads)
    (hfail : link.read k = ReadRes.fail) :
    (Get link fuel st).1 = some ⟨0, 0, some GetErr.onRead⟩ ∧
      (Get link fuel st).2.reads = k + 1 ∧
      (Get link fuel st).2.history = st.history ∧
      (Get link fuel st).2.opens = st.opens + 1 ∧
      (Get link fuel st).2.port
        = (if link.openFails st.opens then { st.port with closed := true }
           else ⟨st.opens + 1, false⟩) ∧
      ∃ mid, (Get link fuel st).2.trace
        = st.trace ++ mid ++ [Event.read, Event.close, Event.openPort]
          ++ (if link.openFails st.opens then [Event.log LogMsg.failedOpen] else []) := by
  unfold Get at hissued ⊢
  rcases getLoop_sound link fuel st.maxRetry st with hq | ⟨he, ha⟩
  · obtain ⟨_, _, _, _, h5, _⟩ := hq
    exact absurd hfail (h5 k hk hissued)
  · obtain ⟨_, _, b3, b4, b5, b6, b7⟩ := ha
    refine ⟨he, ?_, b4, b5, b6, b7⟩
    by_contra hne
    exact absurd hfail (b3 k hk (by omega))

/-- C5 amended, on `flakyLink`: the second read of the call fails in the second
attempt, after a first attempt rejected for its checksum. -/
theorem read_error_aborts_witness :
    (Get flakyLink 32 freshDriver).1 = some ⟨0, 0, some GetErr.onRead⟩ ∧
      (Get flakyLink 32 freshDriver).2.reads = 1 + 1 ∧
      (Get flakyLink 32 freshDriver).2.history = freshDriver.history ∧
      (Get flakyLink 32 freshDriver).2.port = ⟨2, false⟩ :=
  have h := read_error_aborts flakyLink 32 freshDriver 1 (by decide) (by decide) rfl
  ⟨h.1, h.2.1, h.2.2.1, h.2.2.2.2.1⟩

theorem attempt_of_rejectedLocally (link : Link) (fuel : Nat) (st : State)
    (h : rejectedLocally link fuel st = true) : (attempt link fuel st).1 = Step.next := by
  unfold rejectedLocally at h
  cases hf : link.flushFails st.flushes with
  | true => simp [hf] at h
  | false =>
    cases hl : (readLoop link fuel 0 st.flushed).1 with
    | failed =>
      have hpair : readLoop link fuel 0 st.flushed
          = (LoopEnd.failed, (readLoop link fuel 0 st.flushed).2) := by rw [← hl]
      rw [hpair] at h; simp at h
    | pending a =>
      have hpair : readLoop link fuel 0 st.flushed
          = (LoopEnd.pending a, (readLoop link fuel 0 st.flushed).2) := by rw [← hl]
      rw [hpair] at h; simp at h
    | complete a =>
      have hpair : readLoop link fuel 0 st.flushed
          = (LoopEnd.complete a, (readLoop link fuel 0 st.flushed).2) := by rw [← hl]
      rw [hpair] at h
      simp only [hf, Bool.not_false, Bool.true_and] at h
      rw [attempt_complete link fuel st hf a hl]
      have hnone : (afterRead a (readLoop link fuel 0 st.flushed).2).1 = none := by
        unfold afterRead
        by_cases h1 : a ≠ 32
        · rw [if_pos h1]
        · rw [if_neg h1]
          by_cases h2 : headerRejects (readLoop link fuel 0 st.flushed).2.buf = true
          · rw [if_pos h2]
          · rw [if_neg h2]
            by_cases h3 : checksumRejects (readLoop link fuel 0 st.flushed).2.buf = true
            · rw [if_pos h3]
            · rw [if_neg h3]
              have h1' : a = 32 := by simpa using h1
              simp only [h1', bne_self_eq_false, h2, h3, Bool.false_or] at h
              simp only [Bool.not_eq_true] at h2 h3
              simp [h2, h3] at h
              simp [h]
      simp only [hnone]

theorem stateBefore_succ_front (link : Link) (fuel : Nat) (st : State) (j : Nat) :
    stateBefore link fuel st (j + 1) = stateBefore link fuel (attempt link fuel st).2 j := by
  induction j with
  | zero => rfl
  | succ j ih =>
    show (attempt link fuel (stateBefore link fuel st (j + 1))).2 = _
    rw [ih]; rfl

theorem getLoop_all_next (link : Link) (fuel : Nat) :
    ∀ (n : Nat) (st : State),
      (∀ j, j < n → (attempt link fuel (stateBefore link fuel st j)).1 = Step.next) →
      getLoop link fuel n st = (some ⟨0, 0, some GetErr.invalid⟩, stateBefore link fuel st n) ∧
      (stateBefore link fuel st n).flushes = st.flushes + n ∧
      (stateBefore link fuel st n).history = st.history := by
  intro n
  induction n with
  | zero => intro st _; exact ⟨rfl, rfl, rfl⟩
  | succ n ih =>
    intro st h
    have h0 : (attempt link fuel st).1 = Step.next := h 0 (Nat.succ_pos n)
    have hrest : ∀ j, j < n →
        (attempt link fuel (stateBefore link fuel (attempt link fuel st).2 j)).1 = Step.next := by
      intro j hj
      rw [← stateBefore_succ_front]
      exact h (j + 1) (by omega)
    obtain ⟨g1, g2, g3⟩ := ih (attempt link fuel st).2 hrest
    obtain ⟨_, a2, a3⟩ := (attempt_sound link fuel st).1 h0
    have hpair : attempt link fuel st = (Step.next, (attempt link fuel st).2) := by
      rw [← h0]
    refine ⟨?_, ?_, ?_⟩
    · rw [getLoop, hpair]
      simp only
      rw [g1, stateBefore_succ_front]
    · rw [stateBefore_succ_front, g2, a3]; omega
    · rw [stateBefore_succ_front, g3, a2]

/-- C6. If every one of the ten attempts of a call of `Get` is rejected locally
(its flush and its reads succeed, and the frame fails the length, header or
checksum test or the outlier filter), then `Get` makes exactly ten attempts,
issuing ten flushes, and returns the error "psm7003 is invalid currently" with
(0, 0); the history is left unchanged. -/
theorem retries_exhausted (link : Link) (fuel : Nat) (st : State) (hmax : st.maxRetry = 10)
    (hrej : ∀ j, j < 10 → rejectedLocally link fuel (stateBefore link fuel st j) = true) :
    Get link fuel st
        = (some ⟨0, 0, some GetErr.invalid⟩, stateBefore link fuel st 10) ∧
      (Get link fuel st).2.flushes = st.flushes + 10 ∧
      (Get link fuel st).2.history = st.history := by
  have h := getLoop_all_next link fuel 10 st
    (fun j hj => attempt_of_rejectedLocally link fuel _ (hrej j hj))
  unfold Get
  rw [hmax, h.1]
  exact ⟨rfl, h.2.1, h.2.2⟩

/-- C6, on a link that delivers `badSumFrame` at every read: a fresh driver
flushes ten times and reports the sensor as invalid, its history still empty. -/
theorem retries_exhausted_witness :
    (Get (steadyLink badSumFrame) 32 freshDriver).1 = some ⟨0, 0, some GetErr.invalid⟩ ∧
      (Get (steadyLink badSumFrame) 32 freshDriver).2.flushes = 0 + 10 ∧
      (Get (steadyLink badSumFrame) 32 freshDriver).2.history = NewHistory 10 :=
  have h := retries_exhausted (steadyLink badSumFrame) 32 freshDriver rfl
    (by intro j hj; interval_cases j <;> rfl)
  ⟨by rw [h.1], h.2.1, h.2.2⟩

end PMS7003

/-! ## Termination and result of the read loop -/

namespace PMS7003

theorem readCount_pos (a : Nat) (bytes : List Byte) (ha : a < 32) (hb : bytes ≠ []) :
    0 < readCount a bytes := by
  unfold readCount
  rw [List.length_take]
  have hlen : 0 < bytes.length := List.length_pos.mpr hb
  omega

theorem readLoop_progress (link : Link) (hprog : ∀ k, link.read k ≠ ReadRes.data []) (fuel : Nat) :
    ∀ (a : Nat) (st : State), 32 ≤ a + fuel →
      (readLoop link fuel a st).1.stopped = true ∧
      (readLoop link fuel a st).2.reads ≤ st.reads + (32 - a) := by
  induction fuel with
  | zero =>
    intro a st h
    rw [readLoop_zero, if_neg (by omega)]
    exact ⟨rfl, by simp⟩
  | succ fuel ih =>
    intro a st h
    by_cases ha : a < 32
    · cases hr : link.read st.reads with
      | fail =>
        rw [readLoop_succ_fail link fuel a st ha hr]
        exact ⟨rfl, by simp; omega⟩
      | data bytes =>
        have hb : bytes ≠ [] := by
          intro hnil; rw [hnil] at hr; exact hprog _ hr
        have hpos := readCount_pos a bytes ha hb
        rw [readLoop_succ_data link fuel a st ha bytes hr]
        obtain ⟨h1, h2⟩ := ih (a + readCount a bytes)
          { st with reads := st.reads + 1, trace := st.trace ++ [Event.read],
                    buf := writeAt st.buf a bytes } (by omega)
        exact ⟨h1, by simp at h2; omega⟩
    · rw [readLoop_succ_done link fuel a st ha]
      exact ⟨rfl, by simp⟩

/-- C7. The read loop of an attempt issues at most 32 reads: for every behaviour
the link can show to the driver, that is, every read either returns an error
or delivers at least one byte (a read that gets no byte returns the error
`io.EOF`), the loop stops, with a complete count or on the read error, after
at most 32 reads, whatever larger number of reads it is allowed. -/
theorem readLoop_bounded (link : Link) (fuel : Nat) (st : State) (hfuel : 32 ≤ fuel)
    (hprog : ∀ k, link.read k ≠ ReadRes.data []) :
    (readLoop link fuel 0 st).1.stopped = true ∧
      (readLoop link fuel 0 st).2.reads ≤ st.reads + 32 := by
  have h := readLoop_progress link hprog fuel 0 st (by omega)
  exact ⟨h.1, by simpa using h.2⟩

/-- C7, on a link that delivers one byte at every read, and on a link whose
reads all come back with an error. -/
theorem readLoop_bounded_witness :
    ((readLoop (steadyLink [0x42]) 40 0 freshDriver).1.stopped = true ∧
        (readLoop (steadyLink [0x42]) 40 0 freshDriver).2.reads ≤ 0 + 32) ∧
      ((readLoop deadLink 40 0 freshDriver).1.stopped = true ∧
        (readLoop deadLink 40 0 freshDriver).2.reads ≤ 0 + 32) :=
  ⟨readLoop_bounded (steadyLink [0x42]) 40 freshDriver (by decide)
      (by intro k h; simp [steadyLink] at h),
    readLoop_bounded deadLink 40 freshDriver (by decide)
      (by intro k h; simp [deadLink] at h)⟩

/-- C8 as stated fails: a first read that delivers the 33 bytes of `longChunk`
(the slice it is given has 128 bytes) ends the loop with a count of 33, not 32,
and the attempt is then rejected for its length without being validated. -/
theorem readLoop_overshoot :
    (readLoop (steadyLink longChunk) 32 0 freshDriver.flushed).1 = LoopEnd.complete 33 ∧
      (attempt (steadyLink longChunk) 32 freshDriver).1 = Step.next ∧
      (attempt (steadyLink longChunk) 32 freshDriver).2.trace
        = [Event.openPort, Event.flush, Event.read, Event.log (LogMsg.incorrectLen 33)] := by
  refine ⟨rfl, rfl, rfl⟩

end PMS7003

namespace PMS7003

theorem afterRead_validate (st : State) :
    afterRead 32 st
      = match validate st.buf with
        | Validation.framing =>
          (none, { st with trace := st.trace ++ [Event.log LogMsg.incorrectHeader] })
        | Validation.checksum =>
          (none, { st with trace := st.trace ++ [Event.log LogMsg.checksumFailure] })
        | Validation.decoded pm25 pm10 =>
          if !(checkDelta st.history pm25).1 then
            (none, { st with
              history := (checkDelta st.history pm25).2
              trace := st.trace ++ [Event.checkDelta pm25]
                ++ [Event.log (LogMsg.deltaFailed pm25)] })
          else
            (some ⟨pm25, pm10, none⟩, { st with
              history := (checkDelta st.history pm25).2
              trace := st.trace ++ [Event.checkDelta pm25] }) := by
  unfold afterRead validate
  cases hh : headerRejects st.buf <;> cases hc : checksumRejects st.buf <;> simp

theorem arrived_succ_data (link : Link) (fuel a k : Nat) (ha : a < 32) (bytes : List Byte)
    (hr : link.read k = ReadRes.data bytes) :
    arrived link (fuel + 1) a k
      = bytes.take (128 - a) ++ arrived link fuel (a + readCount a bytes) (k + 1) := by
  simp [arrived, ha, hr]

theorem arrived_done (link : Link) (fuel a k : Nat) (ha : ¬ a < 32) :
    arrived link fuel a k = [] := by
  cases fuel with
  | zero => rfl
  | succ fuel => simp [arrived, ha]

theorem readLoop_collects (link : Link) (fuel : Nat) :
    ∀ (a0 : Nat) (st : State) (a : Nat), a0 ≤ 128 →
      (readLoop link fuel a0 st).1 = LoopEnd.complete a →
      32 ≤ a ∧ a ≤ 128 ∧ a = a0 + (arrived link fuel a0 st.reads).length ∧
      (∀ i : Fin 128, i.val < a0 → (readLoop link fuel a0 st).2.buf i = st.buf i) ∧
      (∀ i : Fin 128, a0 ≤ i.val → i.val < a →
        (arrived link fuel a0 st.reads)[i.val - a0]?
          = some ((readLoop link fuel a0 st).2.buf i)) := by
  induction fuel with
  | zero =>
    intro a0 st a h0 h
    rw [readLoop_zero] at h ⊢
    by_cases ha : a0 < 32
    · rw [if_pos ha] at h; simp at h
    · rw [if_neg ha] at h ⊢
      have hEq : a0 = a := by simpa using h
      subst hEq
      rw [arrived_done link 0 a0 st.reads ha]
      exact ⟨by omega, h0, by simp, fun _ _ => rfl, fun i h1 h2 => by omega⟩
  | succ fuel ih =>
    intro a0 st a h0 h
    by_cases ha : a0 < 32
    · cases hr : link.read st.reads with
      | fail => rw [readLoop_succ_fail link fuel a0 st ha hr] at h; simp at h
      | data bytes =>
        rw [readLoop_succ_data link fuel a0 st ha bytes hr] at h ⊢
        rw [arrived_succ_data link fuel a0 st.reads ha bytes hr]
        have hn : readCount a0 bytes = (bytes.take (128 - a0)).length := rfl
        have hle : readCount a0 bytes ≤ 128 - a0 := by
          rw [hn, List.length_take]; omega
        obtain ⟨h1, h2, h3, h4, h5⟩ := ih (a0 + readCount a0 bytes)
          { st with reads := st.reads + 1, trace := st.trace ++ [Event.read],
                    buf := writeAt st.buf a0 bytes } a (by omega) h
        simp only at h3 h4 h5
        refine ⟨h1, h2, ?_, ?_, ?_⟩
        · rw [List.length_append, ← hn]; omega
        · intro i hi
          rw [h4 i (by omega)]
          simp [writeAt]
          intro hcontra; omega
        · intro i hi1 hi2
          by_cases hlt : i.val < a0 + readCount a0 bytes
          · rw [List.getElem?_append_left (by rw [← hn]; omega), h4 i hlt]
            have hidx : i.val - a0 < (bytes.take (128 - a0)).length := by rw [← hn]; omega
            simp only [writeAt, hi1, if_true]
            rw [List.getElem?_eq_getElem hidx]
            rfl
          · rw [List.getElem?_append_right (by rw [← hn]; omega)]
            have hidx : i.val - a0 - (bytes.take (128 - a0)).length
                = i.val - (a0 + readCount a0 bytes) := by rw [← hn]; omega
            rw [hidx]
            exact h5 i (by omega) hi2
    · rw [readLoop_succ_done link fuel a0 st ha] at h ⊢
      have hEq : a0 = a := by simpa using h
      subst hEq
      rw [arrived_done link (fuel + 1) a0 st.reads ha]
      exact ⟨by omega, h0, by simp, fun _ _ => rfl, fun i h1 h2 => by omega⟩

/-- C8, amended. When the read loop of an attempt is left without a read error,
the count `a` of bytes accumulated is at least 32 and at most 128 (a read may
fill the whole 128-byte buffer), it is the number of bytes the reads delivered,
and these bytes lie at offsets 0..a-1 of the buffer in arrival order. A count
other than 32 is rejected as an incorrect length, without validation; with a
count of exactly 32 the buffer goes to the validation step, and a frame that
it decodes and the outlier filter accepts is returned. -/
theorem readLoop_complete (link : Link) (fuel : Nat) (st : State) (a : Nat)
    (h : (readLoop link fuel 0 st).1 = LoopEnd.complete a) :
    32 ≤ a ∧ a ≤ 128 ∧ a = (arrived link fuel 0 st.reads).length ∧
      (∀ i : Fin 128, i.val < a →
        (arrived link fuel 0 st.reads)[i.val]? = some ((readLoop link fuel 0 st).2.buf i)) ∧
      (a ≠ 32 → afterRead a (readLoop link fuel 0 st).2
        = (none, { (readLoop link fuel 0 st).2 with
            trace := (readLoop link fuel 0 st).2.trace
              ++ [Event.log (LogMsg.incorrectLen a)] })) ∧
      (a = 32 → ∀ pm25 pm10,
        validate (readLoop link fuel 0 st).2.buf = Validation.decoded pm25 pm10 →
        (checkDelta (readLoop link fuel 0 st).2.history pm25).1 = true →
        (afterRead a (readLoop link fuel 0 st).2).1 = some ⟨pm25, pm10, none⟩) := by
  obtain ⟨h1, h2, h3, _, h5⟩ := readLoop_collects link fuel 0 st a (by decide) h
  refine ⟨h1, h2, by simpa using h3, fun i hi => by simpa using h5 i (Nat.zero_le _) hi, ?_, ?_⟩
  · intro hne
    simp [afterRead, hne]
  · intro h32 pm25 pm10 hv hp
    rw [h32, afterRead_validate, hv]
    simp [hp]

/-- C8 amended, on a link that delivers the 33 bytes of `longChunk` at once. -/
theorem readLoop_complete_witness :
    32 ≤ 33 ∧ 33 ≤ 128 ∧ 33 = (arrived (steadyLink longChunk) 32 0 freshDriver.flushed.reads).length :=
  have h := readLoop_complete (steadyLink longChunk) 32 freshDriver.flushed 33 rfl
  ⟨h.1, h.2.1, h.2.2.1⟩

end PMS7003

/-! ## The auto-air application -/

namespace AutoAir

/-- C9 as stated fails: at 22:00 a pm2.5 of 200 leaves an air-cleaner that is off
switched off, although 200 >= 130. -/
theorem clean_night_stays_off :
    (cleanStep 22 200 ⟨false, []⟩).state = false ∧ 200 ≥ 130 := by
  decide

/-- C9, amended. For every hour and every pm2.5 value v, one step of `clean` on
an air-cleaner that is off turns it on when v >= 130 and the night guard does
not apply (v >= 400, or the hour is from 8 to 19); when the night guard applies
(v < 400 and the hour is 20 or later or before 8) the step leaves it off and
sends nothing to the servo. -/
theorem clean_turns_on (hour v : Nat) (a : AutoAirState) (hoff : a.state = false) :
    ((v ≥ 400 ∨ (8 ≤ hour ∧ hour < 20)) → v ≥ 130 → cleanStep hour v a = a.on) ∧
      ((v < 400 ∧ (hour ≥ 20 ∨ hour < 8)) → cleanStep hour v a = a) := by
  constructor
  · intro hday hv
    have hguard : ¬ (v < 400 ∧ (hour ≥ 20 ∨ hour < 8)) := by omega
    have htrig : v ≥ trigOnPM25 := by unfold trigOnPM25; omega
    simp only [cleanStep, hguard, if_false, hoff]
    simp [htrig]
  · intro hnight
    simp [cleanStep, hnight, hoff]

/-- C9 amended, at noon with pm2.5 = 130 and at 22:00 with pm2.5 = 200. -/
theorem clean_turns_on_witness :
    (cleanStep 12 130 ⟨false, []⟩).state = true ∧ cleanStep 22 200 ⟨false, []⟩ = ⟨false, []⟩ :=
  ⟨by rw [(clean_turns_on 12 130 ⟨false, []⟩ rfl).1 (by decide) (by decide)]; rfl,
   (clean_turns_on 22 200 ⟨false, []⟩ rfl).2 (by decide)⟩

/-- C10. When the sensors server answers with the error response of `pm25Handler`
(here for the error "psm7003 is invalid currently" of `Get`), whose `error_msg`
is not empty, `getPM25` returns `(0, nil)`, and `detect` sends the value 0 to
the clean loop. -/
theorem getPM25_error_response_returns_nil :
    (pm25Handler 0 (some "psm7003 is invalid currently")).ErrorMsg ≠ "" ∧
      getPM25 ⟨HttpGet.response, none,
          Except.ok (pm25Handler 0 (some "psm7003 is invalid currently"))⟩
        = some (0, none) ∧
      detectStep ⟨HttpGet.response, none,
          Except.ok (pm25Handler 0 (some "psm7003 is invalid currently"))⟩
        = Detected.sent 0 := by
  refine ⟨by decide, by decide, by decide⟩

end AutoAir
